import Mathlib

/-!
Verification development for the spoc-parser repository: a shallow
embedding of the Netspoc policy-language parser (package parser) and
printer (package printer), with theorems checking the stated properties
of the pipeline. Names are kept as in the Go source where possible.
Strings are embedded as lists of characters; Go byte positions become
character positions (all delimiter characters involved are ASCII).
-/

namespace Spoc

/-- Single-quote character, used to build error messages such as
`Expected ...` that quote a token. -/
def sq : String := String.singleton (Char.ofNat 39)

/-- Go strings.Split on a one-character separator: splits the character
list at every occurrence of `sep`; the empty list yields one empty part. -/
def splitOnC (sep : Char) : List Char → List (List Char)
  | [] => [[]]
  | c :: rest =>
    if c = sep then [] :: splitOnC sep rest
    else
      match splitOnC sep rest with
      | g :: gs => (c :: g) :: gs
      | [] => [[c]]

/-- From parser.go isSimpleName: nonempty and none of `.` `:` `/` `@`. -/
def isSimpleName (n : List Char) : Bool :=
  !n.isEmpty && n.all fun c => !(c = '.' || c = ':' || c = '/' || c = '@')

/-- From parser.go isDomain: every dot-separated part is a simple name,
and the whole string is nonempty. -/
def isDomain (n : List Char) : Bool :=
  (splitOnC '.' n).all isSimpleName && !n.isEmpty

/-- Go strings.HasPrefix(name, "id:") combined with the slice name[3:]:
the remainder when the name carries the `id:` prefix. -/
def idSplit : List Char → Option (List Char)
  | 'i' :: 'd' :: ':' :: id => some id
  | _ => none

/-- From parser.go verifyHostname: the error condition computed there.
For a name with prefix `id:` the remainder is split at the first `@`
(Go strings.Index); with no `@` present (index -1) the Go expression
`i > 0 && !isDomain(id[:i]) || !isDomain(id[i+1:])` degenerates to
`!isDomain(id)` because `id[0:] = id`. Other names must be simple. -/
def hostnameErr (name : List Char) : Bool :=
  match idSplit name with
  | some id =>
    match id.findIdx? (· = '@') with
    | some i => (decide (0 < i) && !isDomain (id.take i)) || !isDomain (id.drop (i + 1))
    | none => !isDomain id
  | none => !isSimpleName name

/-- From parser.go isNetworkName: optional `/`-separated bridge suffix,
split at the first `/`. -/
def isNetworkName (n : List Char) : Bool :=
  match n.findIdx? (· = '/') with
  | none => isSimpleName n
  | some i => isSimpleName (n.take i) && isSimpleName (n.drop (i + 1))

/-- From parser.go isRouterName: optional `@`-separated VRF suffix,
split at the first `@`. -/
def isRouterName (n : List Char) : Bool :=
  match n.findIdx? (· = '@') with
  | none => isSimpleName n
  | some i => isSimpleName (n.take i) && isSimpleName (n.drop (i + 1))

/-- The hostname acceptance rule exactly as claim C7 words it: a simple
name, or `id:<local>@<domain>` / `id:@<domain>` where each half around
the first `@` is independently domain-valid (an `@` is required after
`id:`). Stated for comparison with the source function. -/
def hostnameSpecOK (name : List Char) : Bool :=
  isSimpleName name ||
    (match idSplit name with
     | some id =>
       match id.findIdx? (· = '@') with
       | some i => (decide (i = 0) || isDomain (id.take i)) && isDomain (id.drop (i + 1))
       | none => false
     | none => false)

/-- The hostname acceptance rule as amended: like the spec rule, but a
name `id:<rest>` containing no `@` is accepted precisely when `<rest>`
is itself domain-valid. -/
def hostnameAmendedOK (name : List Char) : Bool :=
  isSimpleName name ||
    (match idSplit name with
     | some id =>
       match id.findIdx? (· = '@') with
       | some i => (decide (i = 0) || isDomain (id.take i)) && isDomain (id.drop (i + 1))
       | none => isDomain id
     | none => false)

/-! ## The net package primitives used by ipPrefix

The parser validates `ip = A.B.C.D/n` tokens with Go net.ParseIP,
IP.To4, net.CIDRMask and strconv.Atoi. These external collaborators are
embedded from their documented Go semantics (pre-1.17 stdlib, matching
the ioutil-era repository). An IP is the 16-byte form Go returns. -/

/-- Go net.dtoi: decimal prefix of the string, capped at 0xFFFFFF.
Returns (value, characters consumed, ok). -/
def dtoiGo : List Char → Nat → Nat → Nat × Nat × Bool
  | [], n, i => if i = 0 then (0, 0, false) else (n, i, true)
  | c :: rest, n, i =>
    if '0' ≤ c && c ≤ '9' then
      let n2 := n * 10 + (c.toNat - 48)
      if 0xFFFFFF ≤ n2 then (0xFFFFFF, i + 1, false) else dtoiGo rest n2 (i + 1)
    else if i = 0 then (0, 0, false) else (n, i, true)

def dtoi (s : List Char) : Nat × Nat × Bool := dtoiGo s 0 0

/-- Go net.xtoi: hexadecimal prefix of the string. -/
def xtoiGo : List Char → Nat → Nat → Nat × Nat × Bool
  | [], n, i => if i = 0 then (0, 0, false) else (n, i, true)
  | c :: rest, n, i =>
    let v : Option Nat :=
      if '0' ≤ c && c ≤ '9' then some (c.toNat - 48)
      else if 'a' ≤ c && c ≤ 'f' then some (c.toNat - 97 + 10)
      else if 'A' ≤ c && c ≤ 'F' then some (c.toNat - 65 + 10)
      else none
    match v with
    | some d =>
      let n2 := n * 16 + d
      if 0xFFFFFF ≤ n2 then (0, i, false) else xtoiGo rest n2 (i + 1)
    | none => if i = 0 then (0, i, false) else (n, i, true)

def xtoi (s : List Char) : Nat × Nat × Bool := xtoiGo s 0 0

/-- The 16-byte form of an IPv4 address (Go net.IPv4). -/
def v4Mapped (a b c d : Nat) : List Nat :=
  [0, 0, 0, 0, 0, 0, 0, 0, 0, 0, 0xFF, 0xFF, a, b, c, d]

/-- Go net.parseIPv4 field loop: `k` fields remain; a `.` separator is
consumed before every field but the first; each field is a decimal
number of at most value 0xFF. -/
def parseIPv4Fields : Nat → List Char → List Nat → Option (List Nat)
  | 0, s, acc => if s.isEmpty then some acc else none
  | k + 1, s, acc =>
    let sep : Option (List Char) :=
      if acc.isEmpty then some s
      else match s with
        | '.' :: r => some r
        | _ => none
    match sep with
    | none => none
    | some s2 =>
      match dtoi s2 with
      | (n, c, ok) =>
        if ok && n ≤ 0xFF then parseIPv4Fields k (s2.drop c) (acc ++ [n]) else none

/-- Go net.parseIPv4: dotted quad, returned in 16-byte mapped form. -/
def parseIPv4 (s : List Char) : Option (List Nat) :=
  match parseIPv4Fields 4 s [] with
  | some [a, b, c, d] => some (v4Mapped a b c d)
  | _ => none

/-- One iteration of the Go net.parseIPv6 group loop. The byte list
`acc` holds the bytes written so far (Go index i = acc.length), `ell`
the ellipsis position. Returns the final (rest, ellipsis, bytes). -/
def v6Iter : Nat → List Char → Option Nat → List Nat → Option (List Char × Option Nat × List Nat)
  | fuel, s, ell, acc =>
    if 16 ≤ acc.length then some (s, ell, acc)
    else match fuel with
    | 0 => none
    | fuel + 1 =>
      match xtoi s with
      | (n, c, ok) =>
        if !ok || 0xFFFF < n then none
        else if c < s.length && (s.drop c).headD ' ' = '.' then
          if ell.isNone && acc.length ≠ 12 then none
          else if 16 < acc.length + 4 then none
          else match parseIPv4 s with
            | none => none
            | some ip4 => some ([], ell, acc ++ ip4.drop 12)
        else
          let acc2 := acc ++ [n / 256, n % 256]
          let s2 := s.drop c
          match s2 with
          | [] => some (s2, ell, acc2)
          | ':' :: s3 =>
            if s3.isEmpty then none
            else match s3 with
              | ':' :: s4 =>
                if ell.isSome then none
                else if s4.isEmpty then some (s4, some acc2.length, acc2)
                else v6Iter fuel s4 (some acc2.length) acc2
              | _ => v6Iter fuel s3 ell acc2
          | _ => none

/-- Go net.parseIPv6: hex groups, `::` ellipsis, optional embedded
dotted quad. -/
def parseIPv6 (s : List Char) : Option (List Nat) :=
  let start : Option Nat × List Char :=
    match s with
    | ':' :: ':' :: r => (some 0, r)
    | _ => (none, s)
  match start with
  | (ell0, s0) =>
    if ell0.isSome && s0.isEmpty then some (List.replicate 16 0)
    else match v6Iter 8 s0 ell0 [] with
      | none => none
      | some (sEnd, ell, acc) =>
        if !sEnd.isEmpty then none
        else if acc.length < 16 then
          match ell with
          | none => none
          | some e => some (acc.take e ++ List.replicate (16 - acc.length) 0 ++ acc.drop e)
        else if ell.isSome then none
        else some acc

/-- Go net.ParseIP: dispatch on the first `.` or `:` character. -/
def parseIP (s : List Char) : Option (List Nat) :=
  match s.find? (fun c => c = '.' || c = ':') with
  | some '.' => parseIPv4 s
  | some _ => parseIPv6 s
  | none => none

/-- Go IP.To4 on a 16-byte address: IPv4-mapped form. -/
def to4 (ip : List Nat) : Bool :=
  match ip with
  | [b0, b1, b2, b3, b4, b5, b6, b7, b8, b9, b10, b11, _, _, _, _] =>
    b0 = 0 && b1 = 0 && b2 = 0 && b3 = 0 && b4 = 0 && b5 = 0 &&
    b6 = 0 && b7 = 0 && b8 = 0 && b9 = 0 && b10 = 0xFF && b11 = 0xFF
  | _ => false

/-- Bit width chosen in parser.go ipPrefix: 8 * IPv4len for a To4
address, 8 * IPv6len otherwise. -/
def ipBits (ip : List Nat) : Nat := if to4 ip then 32 else 128

def digitVal : List Char → Nat → Nat
  | [], n => n
  | c :: r, n => digitVal r (n * 10 + (c.toNat - 48))

def allDigits (s : List Char) : Bool :=
  !s.isEmpty && s.all fun c => '0' ≤ c && c ≤ '9'

/-- Go strconv.Atoi: optional sign, decimal digits. (The int overflow
failure of Atoi is not modelled; in ipPrefix both paths produce the
same diagnostic because CIDRMask rejects any huge value.) -/
def atoi (s : List Char) : Option Int :=
  match s with
  | '+' :: r => if allDigits r then some (Int.ofNat (digitVal r 0)) else none
  | '-' :: r => if allDigits r then some (-Int.ofNat (digitVal r 0)) else none
  | _ => if allDigits s then some (Int.ofNat (digitVal s 0)) else none

/-- Go net.CIDRMask(ones, bits) is non-nil iff 0 ≤ ones ≤ bits. -/
def cidrMaskOK (ones : Int) (bits : Nat) : Bool :=
  0 ≤ ones && ones ≤ bits

/-! ## AST (package ast, embedded)

The ast package itself is not among the given sources; the node shapes
are reconstructed from their uses in parser.go and printer.go: every
node carries Start and Next positions, elements are the closed variant
set of the spec (§3). parser.go builds ObjectRef nodes which printer.go
reads as NamedRef; one constructor represents both. -/

structure IPNet where
  ip : List Nat
  ones : Int
deriving DecidableEq, Repr

inductive Element where
  | namedRef (start : Nat) (typ name : String) (next : Nat)
  | intfRef (start : Nat) (typ router network extension : String) (next : Nat)
  | user (start next : Nat)
  | simpleAuto (start : Nat) (typ : String) (elements : List Element) (next : Nat)
  | aggAuto (start : Nat) (typ : String) (net : Option IPNet) (elements : List Element) (next : Nat)
  | intfAuto (start : Nat) (typ : String) (managed : Bool) (sel : String) (elements : List Element) (next : Nat)
  | intersection (start : Nat) (list : List Element) (next : Nat)
  | complement (start : Nat) (element : Element) (next : Nat)

structure Description where
  start : Nat
  text : String
  next : Nat
deriving DecidableEq, Repr

structure Group where
  start : Nat
  name : String
  description : Option Description
  elements : List Element
  next : Nat
  fname : String

inductive Toplevel where
  | group (g : Group)

/-! ## Parser state

The scanner is an external collaborator (spec §2): it yields (position,
token literal) pairs and skips whitespace and comments. The parser
state is the remaining token stream with one-token lookahead at its
head; the empty literal signals end of input. -/

structure Token where
  pos : Nat
  lit : String
deriving DecidableEq, Repr

structure PState where
  toks : List Token
  endPos : Nat
deriving DecidableEq, Repr

def PState.tok (s : PState) : String :=
  match s.toks with
  | [] => ""
  | t :: _ => t.lit

def PState.pos (s : PState) : Nat :=
  match s.toks with
  | [] => s.endPos
  | t :: _ => t.pos

def PState.next (s : PState) : PState :=
  { s with toks := s.toks.tail }

/-- A raised syntax error: the expectation message together with the
current token at the moment scanner.SyntaxErr was invoked. -/
structure Err where
  msg : String
  pos : Nat
  tok : String
deriving DecidableEq, Repr

def syntaxErr (s : PState) (msg : String) : Err := ⟨msg, s.pos, s.tok⟩

/-- Message format of parser.go expect: Expected `tok` in single quotes. -/
def expectMsg (t : String) : String := "Expected " ++ sq ++ t ++ sq

abbrev PRes (α : Type) := Except Err (α × PState)

/-- From parser.go expect: demand the given token, return its position. -/
def expect (s : PState) (t : String) : Except Err (Nat × PState) :=
  if s.tok = t then .ok (s.pos, s.next) else .error (syntaxErr s (expectMsg t))

/-- From parser.go check: consume the token when it matches. -/
def check (s : PState) (t : String) : Bool × PState :=
  if s.tok = t then (true, s.next) else (false, s)

/-- From parser.go typedName: split the current token at the first `:`
(the token is not consumed). -/
def splitColon (x : String) : Option (String × String) :=
  match x.data.findIdx? (· = ':') with
  | none => none
  | some i => some (⟨x.data.take i⟩, ⟨x.data.drop (i + 1)⟩)

def typedName (s : PState) : Except Err (String × String) :=
  match splitColon s.tok with
  | none => .error (syntaxErr s "Typed name expected")
  | some tn => .ok tn

/-- From parser.go user: build a User node (the `user` token has been
consumed by check in extendedName; as written the function records the
following token position and advances once more). -/
def userEl (s : PState) : Element × PState :=
  (.user s.pos s.next.pos, s.next)

/-- From parser.go objectRef. -/
def objectRef (typ name : String) (s : PState) : Element × PState :=
  (.namedRef s.pos typ name s.next.pos, s.next)

/-- From parser.go hostRef = verifyHostname + objectRef. -/
def hostRef (typ name : String) (s : PState) : PRes Element :=
  if hostnameErr name.data then .error (syntaxErr s "Hostname expected")
  else .ok (objectRef typ name s)

/-- From parser.go networkRef = verifyNetworkName + objectRef. -/
def networkRef (typ name : String) (s : PState) : PRes Element :=
  if !isNetworkName name.data then .error (syntaxErr s "Name or bridged name expected")
  else .ok (objectRef typ name s)

/-- From parser.go simpleRef = verifySimpleName + objectRef. -/
def simpleRef (typ name : String) (s : PState) : PRes Element :=
  if !isSimpleName name.data then .error (syntaxErr s "Name expected")
  else .ok (objectRef typ name s)

/-- From parser.go selector: `auto` or `all`, followed by `]`. -/
def selector (s : PState) : PRes String :=
  let result := s.tok
  if !(result = "auto" || result = "all") then .error (syntaxErr s "Expected [auto|all]")
  else match expect s.next "]" with
    | .error e => .error e
    | .ok (_, s2) => .ok (result, s2)

/-- From parser.go intfRef: split the name at the first `.` into router
and rest; a literal `[` rest takes an [auto|all] selector, otherwise at
most one further `.`-separated extension segment is allowed and the
network part must pass isNetworkName. -/
def intfRef (typ name : String) (s : PState) : PRes Element :=
  match name.data.findIdx? (· = '.') with
  | none => .error (syntaxErr s "Interface name expected")
  | some i =>
    let router : String := ⟨name.data.take i⟩
    let net : String := ⟨name.data.drop (i + 1)⟩
    let err0 := !isRouterName router.data
    let start := s.pos
    let s1 := s.next
    if net = "[" then
      match selector s1 with
      | .error e => .error e
      | .ok (ext, s2) =>
        if err0 then .error (syntaxErr s2 "Interface name expected")
        else .ok (.intfRef start typ router net ext s2.pos, s2)
    else
      let split : String × String × Bool :=
        match net.data.findIdx? (· = '.') with
        | some j =>
          let ext : String := ⟨net.data.drop (j + 1)⟩
          (⟨net.data.take j⟩, ext, err0 || !isSimpleName ext.data)
        | none => (net, "", err0)
      match split with
      | (net2, ext, err1) =>
        if err1 || !isNetworkName net2.data then
          .error (syntaxErr s1 "Interface name expected")
        else .ok (.intfRef start typ router net2 ext s1.pos, s1)

/-- From parser.go ipPrefix: the current token must be IP/prefixlen;
the address is parsed with net.ParseIP, the length with strconv.Atoi,
and net.CIDRMask validates the length against the address family bit
width. Distinct diagnostics for each failure. -/
def ipPrefix (s : PState) : PRes IPNet :=
  match s.tok.data.findIdx? (· = '/') with
  | some i =>
    match parseIP (s.tok.data.take i) with
    | some ip =>
      match atoi (s.tok.data.drop (i + 1)) with
      | some n =>
        if cidrMaskOK n (ipBits ip) then .ok (⟨ip, n⟩, s.next)
        else .error (syntaxErr s "Prefixlen expected")
      | none => .error (syntaxErr s "Prefixlen expected")
    | none => .error (syntaxErr s "IP address expected")
  | none => .error (syntaxErr s (expectMsg "IP/prefixlen"))

/-! ## Recursive element grammar

union / intersection / complement / extendedName are mutually
recursive through the automatic groups. The recursion is embedded as a
fuel-indexed tower of parser packs: level f+1 wires the straight-line
bodies together, and every loop iteration or nested automatic group
steps down one level. Fuel exhaustion is a distinguished error, so any
theorem about a successful parse holds for every sufficient fuel. -/

structure ParserPack where
  extendedName : PState → PRes Element
  complement : PState → PRes Element
  intersectionTail : List Element → PState → PRes (List Element)
  intersection : PState → PRes Element
  unionTail : String → List Element → PState → PRes (List Element)
  union : String → PState → PRes (List Element)

def fuelErr (s : PState) : Err := ⟨"OUT OF FUEL", s.pos, s.tok⟩

def packZero : ParserPack where
  extendedName := fun s => .error (fuelErr s)
  complement := fun s => .error (fuelErr s)
  intersectionTail := fun _ s => .error (fuelErr s)
  intersection := fun s => .error (fuelErr s)
  unionTail := fun _ _ s => .error (fuelErr s)
  union := fun _ s => .error (fuelErr s)

/-- From parser.go simpleAuto, parameterized by the union parser. -/
def simpleAutoF (pu : String → PState → PRes (List Element))
    (start : Nat) (typ : String) (s : PState) : PRes Element :=
  match pu "]" s with
  | .error e => .error e
  | .ok (list, s2) => .ok (.simpleAuto start typ list s2.pos, s2)

/-- From parser.go aggAuto: optional `ip [=] CIDR &` filter clause, the
`=` consumed by check (hence optional), the `&` demanded by expect. -/
def aggAutoF (pu : String → PState → PRes (List Element))
    (start : Nat) (typ : String) (s : PState) : PRes Element :=
  match check s "ip" with
  | (hasIp, s1) =>
    if hasIp then
      match check s1 "=" with
      | (_, s2) =>
        match ipPrefix s2 with
        | .error e => .error e
        | .ok (n, s3) =>
          match expect s3 "&" with
          | .error e => .error e
          | .ok (_, s4) =>
            match pu "]" s4 with
            | .error e => .error e
            | .ok (list, s5) => .ok (.aggAuto start typ (some n) list s5.pos, s5)
    else
      match pu "]" s1 with
      | .error e => .error e
      | .ok (list, s5) => .ok (.aggAuto start typ none list s5.pos, s5)

/-- From parser.go intfAuto: optional `managed &` filter, then the
nested union, then `.[` and an [auto|all] selector. -/
def intfAutoF (pu : String → PState → PRes (List Element))
    (start : Nat) (typ : String) (s : PState) : PRes Element :=
  match check s "managed" with
  | (m, s1) =>
    let afterM : Except Err PState :=
      if m then
        match expect s1 "&" with
        | .error e => .error e
        | .ok (_, s2) => .ok s2
      else .ok s1
    match afterM with
    | .error e => .error e
    | .ok s2 =>
      match pu "]" s2 with
      | .error e => .error e
      | .ok (list, s3) =>
        match expect s3 ".[" with
        | .error e => .error e
        | .ok (_, s4) =>
          match selector s4 with
          | .error e => .error e
          | .ok (sel, s5) => .ok (.intfAuto start typ m sel list s5.pos, s5)

/-- From parser.go extendedName: `user`, or a typed name dispatched by
the elementType / autoGroupType tables. -/
def extendedNameF (pu : String → PState → PRes (List Element)) (s : PState) : PRes Element :=
  match check s "user" with
  | (isUser, s1) =>
    if isUser then .ok (userEl s1)
    else match typedName s with
      | .error e => .error e
      | .ok (typ, name) =>
        if name = "[" then
          let start := s.pos
          let s2 := s.next
          match typ with
          | "host" => simpleAutoF pu start typ s2
          | "network" => simpleAutoF pu start typ s2
          | "interface" => intfAutoF pu start typ s2
          | "any" => aggAutoF pu start typ s2
          | _ => .error (syntaxErr s2 "Unexpected automatic group")
        else
          match typ with
          | "host" => hostRef typ name s
          | "network" => networkRef typ name s
          | "interface" => intfRef typ name s
          | "any" => simpleRef typ name s
          | "area" => simpleRef typ name s
          | "group" => simpleRef typ name s
          | _ => .error (syntaxErr s "Unknown element type")

/-- From parser.go complement: optional `!` before an extendedName. -/
def complementF (pe : PState → PRes Element) (s : PState) : PRes Element :=
  let start := s.pos
  match check s "!" with
  | (bang, s1) =>
    if bang then
      match pe s1 with
      | .error e => .error e
      | .ok (el, s2) => .ok (.complement start el s2.pos, s2)
    else pe s1

/-- One iteration of the parser.go intersection loop: while check(`&`)
another complement is appended. -/
def intersectionTailStep (pc : PState → PRes Element)
    (rec : List Element → PState → PRes (List Element))
    (acc : List Element) (s : PState) : PRes (List Element) :=
  match check s "&" with
  | (amp, s1) =>
    if amp then
      match pc s1 with
      | .error e => .error e
      | .ok (el, s2) => rec (acc ++ [el]) s2
    else .ok (acc, s1)

/-- From parser.go intersection: an Intersection node is built only for
two or more members, a single member is returned unwrapped. -/
def intersectionF (pc : PState → PRes Element)
    (itail : List Element → PState → PRes (List Element)) (s : PState) : PRes Element :=
  let start := s.pos
  match pc s with
  | .error e => .error e
  | .ok (e0, s1) =>
    match itail [e0] s1 with
    | .error e => .error e
    | .ok (l, s2) =>
      if 1 < l.length then .ok (.intersection start l s2.pos, s2)
      else match l with
        | [x] => .ok (x, s2)
        | _ => .error (syntaxErr s2 "empty intersection")

/-- One iteration of the parser.go union loop: stop token, or a comma
followed by either the stop token (trailing comma) or one more
intersection. -/
def unionTailStep (pi : PState → PRes Element)
    (rec : String → List Element → PState → PRes (List Element))
    (stop : String) (acc : List Element) (s : PState) : PRes (List Element) :=
  match check s stop with
  | (done, s1) =>
    if done then .ok (acc, s1)
    else match expect s1 "," with
      | .error e => .error e
      | .ok (_, s2) =>
        match check s2 stop with
        | (done2, s3) =>
          if done2 then .ok (acc, s3)
          else match pi s3 with
            | .error e => .error e
            | .ok (el, s4) => rec stop (acc ++ [el]) s4

/-- From parser.go union. -/
def unionF (pi : PState → PRes Element)
    (utail : String → List Element → PState → PRes (List Element))
    (stop : String) (s : PState) : PRes (List Element) :=
  match pi s with
  | .error e => .error e
  | .ok (e0, s1) => utail stop [e0] s1

def packSucc (P : ParserPack) : ParserPack :=
  let en := extendedNameF P.union
  let co := complementF en
  let itail := intersectionTailStep co P.intersectionTail
  let inter := intersectionF co itail
  let utail := unionTailStep inter P.unionTail
  let un := unionF inter utail
  ⟨en, co, itail, inter, utail, un⟩

def packs : Nat → ParserPack
  | 0 => packZero
  | f + 1 => packSucc (packs f)

def pExtendedName (f : Nat) : PState → PRes Element := (packs f).extendedName
def pComplement (f : Nat) : PState → PRes Element := (packs f).complement
def pIntersectionTail (f : Nat) : List Element → PState → PRes (List Element) :=
  (packs f).intersectionTail
def pIntersection (f : Nat) : PState → PRes Element := (packs f).intersection
def pUnionTail (f : Nat) : String → List Element → PState → PRes (List Element) :=
  (packs f).unionTail
def pUnion (f : Nat) : String → PState → PRes (List Element) := (packs f).union

/-- From parser.go description. The core checks for the `=` token; the
rest of the line is then taken verbatim via scanner.ToEOL. Modelled
from the spec: ToEOL is scanner behaviour not among the sources; in
the token-stream embedding the line text is the single next token. -/
def description (s : PState) : Except Err (Option Description × PState) :=
  let start := s.pos
  match check s "description" with
  | (has, s1) =>
    if has then
      if s1.tok ≠ "=" then .error (syntaxErr s1 (expectMsg "="))
      else
        let s2 := s1.next
        let text := s2.tok
        let s3 := s2.next
        .ok (some ⟨start, text, s3.pos⟩, s3)
    else .ok (none, s)

/-- From parser.go group: `name = [description] [union];`. -/
def group (f : Nat) (s : PState) : Except Err (Group × PState) :=
  let start := s.pos
  let name := s.tok
  let s1 := s.next
  match expect s1 "=" with
  | .error e => .error e
  | .ok (_, s2) =>
    match description s2 with
    | .error e => .error e
    | .ok (d, s3) =>
      match check s3 ";" with
      | (semi, s4) =>
        if semi then .ok (⟨start, name, d, [], s4.pos, ""⟩, s4)
        else match pUnion f ";" s4 with
          | .error e => .error e
          | .ok (list, s5) => .ok (⟨start, name, d, list, s5.pos, ""⟩, s5)

/-- From parser.go toplevel: the typed-name shape check, then dispatch
through globalType, whose only entry is `group`. -/
def toplevel (f : Nat) (fname : String) (s : PState) : Except Err (Toplevel × PState) :=
  match typedName s with
  | .error e => .error e
  | .ok (typ, name) =>
    if !(typ = "router" && isRouterName name.data ||
         typ = "network" && isNetworkName name.data || isSimpleName name.data) then
      .error (syntaxErr s "Invalid token")
    else match typ with
      | "group" =>
        match group f s with
        | .error e => .error e
        | .ok (g, s2) => .ok (.group { g with fname := fname }, s2)
      | _ => .error (syntaxErr s "Unknown global definition")

/-- From parser.go file: toplevels until the empty end-of-input token. -/
def fileLoop : Nat → Nat → String → PState → Except Err (List Toplevel)
  | 0, _, _, s => .error (fuelErr s)
  | n + 1, f, fname, s =>
    if s.tok = "" then .ok []
    else match toplevel f fname s with
      | .error e => .error e
      | .ok (t, s2) =>
        match fileLoop n f fname s2 with
        | .error e => .error e
        | .ok l => .ok (t :: l)

/-- From parser.go ParseFile, over an already-scanned token stream.
The fuel bound exceeds any possible recursion depth: every loop
iteration or nesting step consumes at least one token. -/
def parseTokens (toks : List Token) (endPos : Nat) (fname : String) :
    Except Err (List Toplevel) :=
  fileLoop (toks.length + 1) (toks.length * 2 + 8) fname ⟨toks, endPos⟩

/-! ## Tokenizer

Modelled from the spec (§2): the scanner is an external collaborator
that turns source bytes into (position, literal) pairs, skipping
whitespace and `#`-to-end-of-line comments. Punctuation `; , & ! = ]`
are single tokens; any other maximal run of non-delimiter characters
is one token, and a run ending in `:` or `.` absorbs a directly
following `[` (giving the `type:[`, `router.[` and `.[` literals the
parser matches on). -/

def isWSChar (c : Char) : Bool := c = ' ' || c = '\t' || c = '\n' || c = '\r'

def isPunct (c : Char) : Bool := c = ';' || c = ',' || c = '&' || c = '!' || c = '='

def isNameChar (c : Char) : Bool :=
  !(isWSChar c || isPunct c || c = '#' || c = '[' || c = ']')

def takeName (s : List Char) : List Char × List Char :=
  match s with
  | [] => ([], [])
  | c :: r =>
    if isNameChar c then
      match takeName r with
      | (run, rest) => (c :: run, rest)
    else ([], s)

def tokenizeF : Nat → List Char → Nat → List Token
  | 0, _, _ => []
  | fuel + 1, s, p =>
    match s with
    | [] => []
    | c :: rest =>
      if isWSChar c then tokenizeF fuel rest (p + 1)
      else if c = '#' then
        let skip := rest.takeWhile (· ≠ '\n')
        tokenizeF fuel (rest.drop skip.length) (p + 1 + skip.length)
      else if isPunct c || c = ']' then
        ⟨p, String.singleton c⟩ :: tokenizeF fuel rest (p + 1)
      else if c = '[' then
        ⟨p, "["⟩ :: tokenizeF fuel rest (p + 1)
      else
        match takeName s with
        | (run, rest2) =>
          match rest2 with
          | '[' :: rest3 =>
            if run.getLastD ' ' = ':' || run.getLastD ' ' = '.' then
              ⟨p, String.mk (run ++ ['['])⟩ :: tokenizeF fuel rest3 (p + run.length + 1)
            else ⟨p, String.mk run⟩ :: tokenizeF fuel rest2 (p + run.length)
          | _ => ⟨p, String.mk run⟩ :: tokenizeF fuel rest2 (p + run.length)

def tokenize (src : List Char) : List Token := tokenizeF src.length src 0

/-- ParseFile on raw source: tokenize, then parse. -/
def parseFile (src : List Char) (fname : String) : Except Err (List Toplevel) :=
  parseTokens (tokenize src) src.length fname

/-- Modelled from the spec (§6): the scanner.SyntaxErr diagnostic
format, with the failing token as the prefix of the near window and
the remainder of its line as the suffix. -/
def formatErr (src : List Char) (fname : String) (e : Err) : String :=
  "Syntax error: " ++ e.msg ++ " at line " ++
    toString (1 + ((src.take e.pos).filter (· = '\n')).length) ++ " of " ++ fname ++
    ", near \"" ++ e.tok ++ "<--HERE-->" ++
    String.mk ((src.drop (e.pos + e.tok.data.length)).takeWhile (· ≠ '\n')) ++ "\""

/-- The whole parser pipeline with formatted diagnostics. -/
def parseFileStr (src fname : String) : Except String (List Toplevel) :=
  match parseFile src.data fname with
  | .ok l => .ok l
  | .error e => .error (formatErr src.data fname e)

/-! ## Structural invariants of parsed elements -/

mutual

/-- The Intersection invariant of the spec (§3): every Intersection
node has at least two members, recursively. -/
def goodB : Element → Bool
  | .namedRef _ _ _ _ => true
  | .intfRef _ _ _ _ _ _ => true
  | .user _ _ => true
  | .simpleAuto _ _ l _ => goodList l
  | .aggAuto _ _ _ l _ => goodList l
  | .intfAuto _ _ _ _ l _ => goodList l
  | .intersection _ l _ => decide (2 ≤ l.length) && goodList l
  | .complement _ e _ => goodB e

def goodList : List Element → Bool
  | [] => true
  | e :: r => goodB e && goodList r

end

/-- Does the element have, at its own top level, an Intersection whose
first member carries a Complement wrapper. -/
def firstIsComplement : Element → Bool
  | .intersection _ (.complement _ _ _ :: _) _ => true
  | _ => false

/-- The Intersection invariant over a toplevel definition. -/
def goodTop : Toplevel → Bool
  | .group g => goodList g.elements

def goodTops : List Toplevel → Bool
  | [] => true
  | t :: r => goodTop t && goodTops r

/-- The Intersection invariant over a whole parse result (vacuous for
rejected inputs). -/
def goodParse : Except Err (List Toplevel) → Bool
  | .error _ => true
  | .ok l => goodTops l

/-! ## Canonical element ordering

Modelled from the spec (§4.2): the sorting code of this repository is
not among the given sources (the printer file given reads element
lists in order); the comparison key is reconstructed from the words of
the spec. Members are partitioned by category priority
group < any < network < interface < host; within a category members
carry a key from a dotted-quad address extracted from their flattened
name text: members without an address first, lexically by name, then
members with an address ascending by it, with the `-`-delimited prefix
length or range end as tie-break, then the name. -/

def typePriority (t : String) : Nat :=
  match t with
  | "group" => 0
  | "any" => 1
  | "network" => 2
  | "interface" => 3
  | "host" => 4
  | _ => 5

/-- Category of an element: its type keyword; an Intersection takes the
category of its first member, a Complement that of its element. -/
def elTyp : Element → String
  | .namedRef _ t _ _ => t
  | .intfRef _ t _ _ _ _ => t
  | .user _ _ => "user"
  | .simpleAuto _ t _ _ => t
  | .aggAuto _ t _ _ _ => t
  | .intfAuto _ t _ _ _ _ => t
  | .intersection _ [] _ => ""
  | .intersection _ (e :: _) _ => elTyp e
  | .complement _ e _ => elTyp e

def natDigits (n : Nat) : List Char := Nat.toDigits 10 n

/-- Display form of a stored IP prefix (Go IPNet.String), dotted quad
for To4 addresses, colon-separated hex groups otherwise. -/
def ipNetStr (n : IPNet) : List Char :=
  let bytes := n.ip
  let addr :=
    if to4 bytes then
      match bytes.drop 12 with
      | [a, b, c, d] =>
        natDigits a ++ '.' :: natDigits b ++ '.' :: natDigits c ++ '.' :: natDigits d
      | _ => []
    else
      match bytes with
      | [b0, b1, b2, b3, b4, b5, b6, b7, b8, b9, b10, b11, b12, b13, b14, b15] =>
        List.intercalate [':']
          ([b0 * 256 + b1, b2 * 256 + b3, b4 * 256 + b5, b6 * 256 + b7,
            b8 * 256 + b9, b10 * 256 + b11, b12 * 256 + b13, b14 * 256 + b15].map
            (Nat.toDigits 16))
      | _ => []
  addr ++ '/' :: natDigits n.ones.toNat

mutual

/-- Flattened one-line name text of an element, following the inline
renderings of printer.go element. -/
def flatName : Element → List Char
  | .namedRef _ t n _ => t.data ++ ':' :: n.data
  | .intfRef _ t r net ext _ =>
    let netE :=
      if net = "[" then '[' :: ext.data ++ [']']
      else net.data ++ (if ext = "" then [] else '.' :: ext.data)
    t.data ++ ':' :: r.data ++ '.' :: netE
  | .user _ _ => "user".data
  | .simpleAuto _ t l _ => t.data ++ ':' :: '[' :: flatList l ++ [']']
  | .aggAuto _ t n l _ =>
    let ipPart :=
      match n with
      | some nn => "ip = ".data ++ ipNetStr nn ++ " & ".data
      | none => []
    t.data ++ ':' :: '[' :: ipPart ++ flatList l ++ [']']
  | .intfAuto _ t m sel l _ =>
    let mPart := if m then "managed & ".data else []
    t.data ++ ':' :: '[' :: mPart ++ flatList l ++ "].[".data ++ sel.data ++ [']']
  | .intersection _ l _ => flatInter l
  | .complement _ e _ => '!' :: flatName e

def flatList : List Element → List Char
  | [] => []
  | [e] => flatName e
  | e :: r => flatName e ++ ',' :: flatList r

def flatInter : List Element → List Char
  | [] => []
  | [e] => flatName e
  | e :: r => flatName e ++ '&' :: flatInter r

end

/-- The name text of a member used for the sort key: the flattened
text without its leading `typ:` keyword (for an Intersection, the
flattened member texts joined). -/
def nameText : Element → List Char
  | .namedRef _ _ n _ => n.data
  | .intfRef _ _ r net ext _ =>
    let netE :=
      if net = "[" then '[' :: ext.data ++ [']']
      else net.data ++ (if ext = "" then [] else '.' :: ext.data)
    r.data ++ '.' :: netE
  | .user _ _ => "user".data
  | .simpleAuto _ _ l _ => '[' :: flatList l ++ [']']
  | .aggAuto _ _ n l _ =>
    let ipPart :=
      match n with
      | some nn => "ip = ".data ++ ipNetStr nn ++ " & ".data
      | none => []
    '[' :: ipPart ++ flatList l ++ [']']
  | .intfAuto _ _ m sel l _ =>
    let mPart := if m then "managed & ".data else []
    '[' :: mPart ++ flatList l ++ "].[".data ++ sel.data ++ [']']
  | .intersection _ l _ => flatInter l
  | .complement _ e _ => '!' :: nameText e

def digitRun (s : List Char) : List Char × List Char :=
  (s.takeWhile fun c => '0' ≤ c && c ≤ '9', s.dropWhile fun c => '0' ≤ c && c ≤ '9')

def isSepC (c : Char) : Bool := c = '.' || c = '_'

def isBoundaryC (c : Char) : Bool := c = '.' || c = '_' || c = '-'

/-- A `.`/`_` separator followed by a nonempty digit run. -/
def sepRun (s : List Char) : Option (Nat × List Char) :=
  match s with
  | c :: r =>
    if isSepC c then
      match digitRun r with
      | ([], _) => none
      | (d, r2) => some (digitVal d 0, r2)
    else none
  | [] => none

/-- Four digit runs separated by `.` or `_` at the head of the text. -/
def quad (s : List Char) : Option (Nat × Nat × Nat × Nat × List Char) :=
  match digitRun s with
  | ([], _) => none
  | (d1, r1) =>
    match sepRun r1 with
    | none => none
    | some (n2, r2) =>
      match sepRun r2 with
      | none => none
      | some (n3, r3) =>
        match sepRun r3 with
        | none => none
        | some (n4, r4) => some (digitVal d1 0, n2, n3, n4, r4)

/-- The optional `-`-delimited suffix after an extracted address: a
prefix length or a second address forming a range, used as tie-break. -/
def secondaryOf (r : List Char) : Nat :=
  match r with
  | '-' :: r2 =>
    match quad r2 with
    | some (a, b, c, d, _) =>
      if a ≤ 255 && b ≤ 255 && c ≤ 255 && d ≤ 255 then ((a * 256 + b) * 256 + c) * 256 + d
      else
        match digitRun r2 with
        | ([], _) => 0
        | (ds, _) => digitVal ds 0
    | none =>
      match digitRun r2 with
      | ([], _) => 0
      | (ds, _) => digitVal ds 0
  | _ => 0

/-- Leftmost boundary-anchored four-group match; a structurally
matching group whose octets exceed 255 yields no address at all. -/
def scanAddrAux : Bool → List Char → Option (Nat × Nat)
  | _, [] => none
  | atB, c :: rest =>
    if atB && ('0' ≤ c && c ≤ '9') then
      match quad (c :: rest) with
      | some (a, b, c2, d, r) =>
        if a ≤ 255 && b ≤ 255 && c2 ≤ 255 && d ≤ 255 then
          some (((a * 256 + b) * 256 + c2) * 256 + d, secondaryOf r)
        else none
      | none => scanAddrAux (isBoundaryC c) rest
    else scanAddrAux (isBoundaryC c) rest

def extractAddr (s : List Char) : Option (Nat × Nat) := scanAddrAux true s

structure SortKey where
  cat : Nat
  hasIp : Nat
  ip : Nat
  second : Nat
  name : List Char

def sortKey (e : Element) : SortKey :=
  let n := nameText e
  match extractAddr n with
  | some (a, b) => ⟨typePriority (elTyp e), 1, a, b, n⟩
  | none => ⟨typePriority (elTyp e), 0, 0, 0, n⟩

/-- Raw lexical comparison of name text by character code. -/
def lexLE : List Char → List Char → Bool
  | [], _ => true
  | _ :: _, [] => false
  | a :: as, b :: bs =>
    if a.toNat < b.toNat then true
    else if b.toNat < a.toNat then false
    else lexLE as bs

def sortKeyLE (a b : SortKey) : Bool :=
  if a.cat ≠ b.cat then decide (a.cat < b.cat)
  else if a.hasIp ≠ b.hasIp then decide (a.hasIp < b.hasIp)
  else if a.ip ≠ b.ip then decide (a.ip < b.ip)
  else if a.second ≠ b.second then decide (a.second < b.second)
  else lexLE a.name b.name

def elLE (a b : Element) : Bool := sortKeyLE (sortKey a) (sortKey b)

def insertEl (x : Element) : List Element → List Element
  | [] => [x]
  | y :: ys => if elLE x y then x :: y :: ys else y :: insertEl x ys

/-- The canonical ordering applied to a union list before rendering. -/
def sortElements (l : List Element) : List Element := l.foldr insertEl []

/-! ## Printer (package printer)

printer.go is among the sources; its comment-recovery collaborators
PreComment / TrailingComment / TrailingCommentAt are not, and are
modelled from the spec (§4.2). Output and source are character lists. -/

/-- The ast.Node Pos() accessor: start position of an element. -/
def elStart : Element → Nat
  | .namedRef s _ _ _ => s
  | .intfRef s _ _ _ _ _ => s
  | .user s _ => s
  | .simpleAuto s _ _ _ => s
  | .aggAuto s _ _ _ _ => s
  | .intfAuto s _ _ _ _ _ => s
  | .intersection s _ _ => s
  | .complement s _ _ => s

/-- The ast.Node End() accessor: next position after an element. -/
def elNext : Element → Nat
  | .namedRef _ _ _ n => n
  | .intfRef _ _ _ _ _ n => n
  | .user _ n => n
  | .simpleAuto _ _ _ n => n
  | .aggAuto _ _ _ _ n => n
  | .intfAuto _ _ _ _ _ n => n
  | .intersection _ _ n => n
  | .complement _ _ n => n

structure Pr where
  src : List Char
  output : List Char
  indent : Nat
  lastPos : Nat

/-- From printer.go print: indentation, the line, a newline; an empty
line prints as a bare newline. -/
def prLine (p : Pr) (line : List Char) : Pr :=
  if line ≠ [] then
    { p with output := p.output ++ List.replicate p.indent ' ' ++ line ++ ['\n'] }
  else { p with output := p.output ++ ['\n'] }

/-- From printer.go emptyLine. -/
def prEmptyLine (p : Pr) : Pr :=
  let l := p.output.length
  if l < 2 || p.output.getLastD ' ' ≠ '\n' || p.output.dropLast.getLastD ' ' ≠ '\n' then
    { p with output := p.output ++ ['\n'] }
  else p

/-- Kind of a source line while recovering pre-comments: 0 blank or
delimiter-only, 1 comment line, 2 other content. -/
def lineKind (ignore : List Char) (line : List Char) : Nat :=
  let rest := line.dropWhile fun c => isWSChar c || ignore.contains c
  if rest.isEmpty then 0 else if rest.headD ' ' = '#' then 1 else 2

def commentText (line : List Char) : List Char := line.dropWhile (· ≠ '#')

def squeezeNones : List (Option (List Char)) → List (Option (List Char))
  | [] => []
  | none :: rest =>
    match squeezeNones rest with
    | none :: r => none :: r
    | r => none :: r
  | some a :: rest => some a :: squeezeNones rest

def trimNones (l : List (Option (List Char))) : List (Option (List Char)) :=
  ((l.dropWhile Option.isNone).reverse.dropWhile Option.isNone).reverse

/-- Modelled from the spec (§4.2): the pre-comments of a node are the
comment lines standing on their own lines strictly between the end of
the previously emitted token and the node start, with blank-line
grouping preserved and runs collapsed to one blank line. -/
def preCommentLines (src : List Char) (lastPos pos : Nat) (ignore : List Char) :
    List (Option (List Char)) :=
  let window := (src.take pos).drop lastPos
  let ls := (splitOnC '\n' window).dropLast
  let kept := (ls.reverse.takeWhile fun l => lineKind ignore l ≠ 2).reverse
  trimNones (squeezeNones
    (kept.map fun l => if lineKind ignore l = 1 then some (commentText l) else none))

def prPreComment (p : Pr) (pos : Nat) (ignore : List Char) : Pr :=
  (preCommentLines p.src p.lastPos pos ignore).foldl
    (fun p e =>
      match e with
      | some t => prLine p t
      | none => prLine p []) p

/-- Modelled from the spec (§4.2): the trailing comment anchored at a
byte position is a same-line comment visible while only whitespace and
characters of the stop set intervene; it is appended as one blank and
the comment text. -/
def trailingCommentAt (src : List Char) (pos : Nat) (stops : List Char) : List Char :=
  let line := (src.drop pos).takeWhile (· ≠ '\n')
  let rest := line.dropWhile fun c => isWSChar c || stops.contains c
  if rest.headD ' ' = '#' then ' ' :: rest else []

/-- From printer.go isShort: a singleton bare NamedRef or User list
renders inline. -/
def isShort (l : List Element) : List Char :=
  match l with
  | [x] =>
    match x with
    | .namedRef _ t n _ => t.data ++ ':' :: n.data
    | .user _ _ => "user".data
    | _ => []
  | _ => []

mutual

/-- From printer.go subElements. -/
def prSubElements : Nat → Pr → List Char → List Char → List Element → List Char → Pr
  | 0, p, _, _, _, _ => p
  | fuel + 1, p, p1, p2, l, stop =>
    let nm := isShort l
    if nm ≠ [] then prLine p (p1 ++ p2 ++ nm ++ stop)
    else
      let p := prLine p (p1 ++ p2)
      let ind := p1.length
      let p := { p with indent := p.indent + ind }
      let p := prElementList fuel p l stop
      { p with indent := p.indent - ind }

/-- From printer.go element. -/
def prElement : Nat → Pr → List Char → Element → List Char → Pr
  | 0, p, _, _, _ => p
  | fuel + 1, p, pre, el, post =>
    match el with
    | .namedRef _ t n _ => prLine p (pre ++ t.data ++ ':' :: n.data ++ post)
    | .intfRef _ t r net ext _ =>
      let (net2, ext2) :=
        if net = "[" then ('[' :: ext.data ++ [']'], ([] : List Char))
        else (net.data, if ext ≠ "" then '.' :: ext.data else [])
      prLine p (pre ++ t.data ++ ':' :: r.data ++ '.' :: net2 ++ ext2 ++ post)
    | .simpleAuto _ t l _ =>
      prSubElements fuel p pre (t.data ++ ":[".data) l (']' :: post)
    | .aggAuto _ t n l _ =>
      let p2 := t.data ++ ":[".data ++
        (match n with
         | some nn => "ip = ".data ++ ipNetStr nn ++ " & ".data
         | none => [])
      prSubElements fuel p pre p2 l (']' :: post)
    | .intfAuto _ t m sel l _ =>
      let p2 := t.data ++ ":[".data ++ (if m then "managed & ".data else [])
      let stop := "].[".data ++ sel.data ++ ']' :: post
      prSubElements fuel p pre p2 l stop
    | .intersection _ l _ => prIntersection fuel p pre l post
    | .complement _ e _ => prElement fuel p "! ".data e post
    | .user _ _ => prLine p (pre ++ "user".data ++ post)

/-- From printer.go intersection. -/
def prIntersection : Nat → Pr → List Char → List Element → List Char → Pr
  | 0, p, _, _, _ => p
  | fuel + 1, p, pre, l, post =>
    match l with
    | [] => prLine p post
    | e0 :: rest =>
      let p := prElement fuel p pre e0
        (trailingCommentAt p.src (elNext e0) "&!".data)
      let ind := pre.length
      let p := { p with indent := p.indent + ind }
      let p := rest.foldl
        (fun p el =>
          let (pre2, el2) :=
            match el with
            | .complement _ inner _ => ("&! ".data, inner)
            | _ => ("& ".data, el)
          let p := prPreComment p (elStart el2) "&!".data
          prElement fuel p pre2 el2
            (trailingCommentAt p.src (elNext el2) "&!,;".data)) p
      let p := prLine p post
      { p with indent := p.indent - ind }

/-- From printer.go elementList; the canonical ordering (modelled from
the spec, §4.2) is applied to the list at every render. -/
def prElementList : Nat → Pr → List Element → List Char → Pr
  | 0, p, _, _ => p
  | fuel + 1, p, l, stop =>
    let l := sortElements l
    let p := { p with indent := p.indent + 1 }
    let p := l.foldl
      (fun p el =>
        let p := prPreComment p (elStart el) [',']
        match el with
        | .intersection a b c => prElement fuel p [] (.intersection a b c) [',']
        | _ =>
          prElement fuel p [] el
            (',' :: trailingCommentAt p.src (elNext el) ",;".data)) p
    let p := { p with indent := p.indent - 1 }
    prLine p stop

end

/-- From printer.go group and topList. -/
def prGroupBody (fuel : Nat) (p : Pr) (g : Group) : Pr :=
  prElementList fuel p g.elements [';']

/-- From printer.go toplevel, for the Group variant (IsList, so the
separator is a bare ` =`). -/
def prToplevel (fuel : Nat) (p : Pr) (t : Toplevel) : Pr :=
  match t with
  | .group g =>
    let p := prPreComment p g.start []
    let sep := " =".data
    let pos := g.start + g.name.data.length
    let p := prLine p (g.name.data ++ sep ++ trailingCommentAt p.src pos sep)
    let p :=
      match g.description with
      | some d =>
        let p := { p with indent := p.indent + 1 }
        let p := prPreComment p d.start sep
        let p := prLine p ("description =".data ++ d.text.data ++
          trailingCommentAt p.src d.next ['='])
        let p := { p with indent := p.indent - 1 }
        prEmptyLine p
      | none => p
    prGroupBody fuel p g

/-- From printer.go File: print each toplevel, an empty line between
consecutive ones. -/
def printFileLoop (fuel : Nat) : Pr → List Toplevel → Pr
  | p, [] => p
  | p, [t] => prToplevel fuel p t
  | p, t :: rest => printFileLoop fuel (prLine (prToplevel fuel p t) []) rest

/-- From printer.go init: a final newline is appended to the source
when missing. -/
def printerInit (src : List Char) : List Char :=
  if 0 < src.length && src.getLastD ' ' ≠ '\n' then src ++ ['\n'] else src

/-- From printer.go File. -/
def printFile (list : List Toplevel) (src : List Char) : List Char :=
  (printFileLoop (src.length + 8) ⟨printerInit src, [], 0, 0⟩ list).output

/-- The comment texts present in a piece of source or output: for every
line holding a `#`, the text from its first `#` to the end of line. -/
def commentLines (s : List Char) : List (List Char) :=
  (splitOnC '\n' s).filterMap fun l =>
    let rest := l.dropWhile (· ≠ '#')
    if rest.isEmpty then none else some rest

/-- Parse and render: the full pipeline on one source. -/
def renderOfParse (src : List Char) (fname : String) : Option (List Char) :=
  match parseFile src fname with
  | .ok l => some (printFile l src)
  | .error _ => none

/-! # Theorems -/

theorem idSplit_some {name id : List Char} (h : idSplit name = some id) :
    name = 'i' :: 'd' :: ':' :: id := by
  unfold idSplit at h
  split at h
  next => cases h; rfl
  next => cases h

theorem isSimpleName_id (id : List Char) :
    isSimpleName ('i' :: 'd' :: ':' :: id) = false := by
  have h : (!((':' : Char) = '.' || (':' : Char) = ':' || (':' : Char) = '/' ||
      (':' : Char) = '@')) = false := by decide
  simp [isSimpleName, List.all_cons, h]

theorem hostnameErr_amended (name : List Char) :
    hostnameAmendedOK name = !hostnameErr name := by
  unfold hostnameAmendedOK hostnameErr
  cases hid : idSplit name with
  | none => simp
  | some id =>
    have hs : isSimpleName name = false := by
      rw [idSplit_some hid]; exact isSimpleName_id id
    cases hfi : id.findIdx? (· = '@') with
    | none => simp [hfi, hs]
    | some i =>
      simp only [hfi, hs, Bool.false_or]
      rcases Nat.eq_zero_or_pos i with hi | hi
      · subst hi; simp
      · have h0 : decide (i = 0) = false := by simp [Nat.pos_iff_ne_zero.mp hi]
        have h1 : decide (0 < i) = true := by simp [hi]
        rw [h0, h1]
        cases isDomain (id.take i) <;> cases isDomain (id.drop (i + 1)) <;> simp

/-- Claim C7, corrected: hostRef accepts a name precisely when the
amended hostname rule holds (the spec rule plus: an `id:`-prefixed
name with no `@` is accepted when its remainder is domain-valid), and
any rejected name raises exactly the Hostname expected error. -/
theorem c7_hostname_amended (typ name : String) (s : PState) :
    hostRef typ name s =
      if hostnameAmendedOK name.data then .ok (objectRef typ name s)
      else .error (syntaxErr s "Hostname expected") := by
  cases h : hostnameErr name.data <;>
    simp [hostRef, hostnameErr_amended, h]

/-- Claim C7 as stated is false at the concrete host name `id:a`: the
parser accepts it (verifyHostname raises no error) although it is
neither a simple name nor of an `@`-carrying `id:` form. -/
theorem c7_counterexample :
    (hostRef "host" "id:a" ⟨[⟨0, "host:id:a"⟩], 9⟩).isOk = true ∧
    hostnameErr "id:a".data = false ∧
    hostnameSpecOK "id:a".data = false := by
  refine ⟨rfl, rfl, rfl⟩

theorem check_cons_pos (p : Nat) (t : String) (r : List Token) (ep : Nat) :
    check ⟨⟨p, t⟩ :: r, ep⟩ t = (true, ⟨r, ep⟩) := by
  simp [check, PState.tok, PState.next]

theorem check_neg {s : PState} {t : String} (h : s.tok ≠ t) :
    check s t = (false, s) := by
  simp [check, h]

theorem expect_neg {s : PState} {t : String} (h : s.tok ≠ t) :
    expect s t = .error (syntaxErr s (expectMsg t)) := by
  simp [expect, h]

theorem expect_pos (p : Nat) (t : String) (r : List Token) (ep : Nat) :
    expect ⟨⟨p, t⟩ :: r, ep⟩ t = .ok (p, ⟨r, ep⟩) := by
  simp [expect, PState.tok, PState.next, PState.pos]

theorem isSimpleName_mem_dot {l : List Char} (h : '.' ∈ l) :
    isSimpleName l = false := by
  unfold isSimpleName
  have hall : (l.all fun c => !(c = '.' || c = ':' || c = '/' || c = '@')) = false := by
    refine List.all_eq_false.mpr ⟨'.', h, ?_⟩
    decide
  rw [hall]
  simp

/-- Claim C8: parsing an interface element reference raises the fatal
Interface name expected error when the name has no `.` at all, when
more than one extension segment follows the network part, and when the
network part fails isNetworkName. -/
theorem c8_interface_errors :
    (∀ (typ name : String) (s : PState),
       name.data.findIdx? (· = '.') = none →
       intfRef typ name s = .error (syntaxErr s "Interface name expected")) ∧
    (∀ (typ name : String) (s : PState) (i j : Nat),
       name.data.findIdx? (· = '.') = some i →
       (⟨name.data.drop (i + 1)⟩ : String) ≠ "[" →
       (name.data.drop (i + 1)).findIdx? (· = '.') = some j →
       '.' ∈ name.data.drop (i + 1 + (j + 1)) →
       intfRef typ name s = .error (syntaxErr s.next "Interface name expected")) ∧
    (∀ (typ name : String) (s : PState) (i : Nat),
       name.data.findIdx? (· = '.') = some i →
       (⟨name.data.drop (i + 1)⟩ : String) ≠ "[" →
       (name.data.drop (i + 1)).findIdx? (· = '.') = none →
       isNetworkName (name.data.drop (i + 1)) = false →
       intfRef typ name s = .error (syntaxErr s.next "Interface name expected")) := by
  refine ⟨?_, ?_, ?_⟩
  · intro typ name s h
    simp [intfRef, h]
  · intro typ name s i j h1 h2 h3 h4
    simp [intfRef, h1, h2, h3, isSimpleName_mem_dot h4]
  · intro typ name s i h1 h2 h3 h4
    simp [intfRef, h1, h2, h3, h4]

/-- Witness for C8 at the spec scenario `interface:r1.n1@vrf2`. -/
theorem c8_witness :
    intfRef "interface" "r1.n1@vrf2" ⟨[⟨11, "interface:r1.n1@vrf2"⟩, ⟨31, ";"⟩], 32⟩ =
      .error (syntaxErr
        (⟨[⟨11, "interface:r1.n1@vrf2"⟩, ⟨31, ";"⟩], 32⟩ : PState).next
        "Interface name expected") :=
  c8_interface_errors.2.2 "interface" "r1.n1@vrf2" _ 2 (by rfl) (by decide) (by rfl) (by rfl)

/-- Claim C9: the `ip = A.B.C.D/n` token of an aggregate automatic
group: no `/` gives Expected IP/prefixlen, a malformed address gives
IP address expected, a malformed or out-of-range prefix length gives
Prefixlen expected, and parsing succeeds exactly when net.CIDRMask
accepts the length against the address family bit width (32 for To4
addresses, 128 otherwise). -/
theorem c9_ip_prefix :
    (∀ s : PState, s.tok.data.findIdx? (· = '/') = none →
       ipPrefix s = .error (syntaxErr s (expectMsg "IP/prefixlen"))) ∧
    (∀ (s : PState) (i : Nat),
       s.tok.data.findIdx? (· = '/') = some i →
       parseIP (s.tok.data.take i) = none →
       ipPrefix s = .error (syntaxErr s "IP address expected")) ∧
    (∀ (s : PState) (i : Nat) (ip : List Nat),
       s.tok.data.findIdx? (· = '/') = some i →
       parseIP (s.tok.data.take i) = some ip →
       atoi (s.tok.data.drop (i + 1)) = none →
       ipPrefix s = .error (syntaxErr s "Prefixlen expected")) ∧
    (∀ (s : PState) (i : Nat) (ip : List Nat) (n : Int),
       s.tok.data.findIdx? (· = '/') = some i →
       parseIP (s.tok.data.take i) = some ip →
       atoi (s.tok.data.drop (i + 1)) = some n →
       cidrMaskOK n (ipBits ip) = false →
       ipPrefix s = .error (syntaxErr s "Prefixlen expected")) ∧
    (∀ (s : PState) (i : Nat) (ip : List Nat) (n : Int),
       s.tok.data.findIdx? (· = '/') = some i →
       parseIP (s.tok.data.take i) = some ip →
       atoi (s.tok.data.drop (i + 1)) = some n →
       cidrMaskOK n (ipBits ip) = true →
       ipPrefix s = .ok (⟨ip, n⟩, s.next)) := by
  refine ⟨?_, ?_, ?_, ?_, ?_⟩
  · intro s h; simp [ipPrefix, h]
  · intro s i h1 h2; simp [ipPrefix, h1, h2]
  · intro s i ip h1 h2 h3; simp [ipPrefix, h1, h2, h3]
  · intro s i ip n h1 h2 h3 h4; simp [ipPrefix, h1, h2, h3, h4]
  · intro s i ip n h1 h2 h3 h4; simp [ipPrefix, h1, h2, h3, h4]

/-- Witness for C9: prefix length 33 is rejected for an IPv4 address. -/
theorem c9_witness :
    ipPrefix ⟨[⟨0, "10.0.0.0/33"⟩], 11⟩ =
      .error (syntaxErr ⟨[⟨0, "10.0.0.0/33"⟩], 11⟩ "Prefixlen expected") :=
  c9_ip_prefix.2.2.2.1 _ 8 (v4Mapped 10 0 0 0) 33 (by rfl) (by rfl) (by rfl) (by rfl)

/-- Claim C10: in an aggregate automatic group the `=` after `ip` is
optional: aggAuto on a token stream with the `=` present parses to the
identical result as without it, while a missing `&` after the prefix
is a fatal Expected & error. -/
theorem c10_agg_auto :
    (∀ (f start : Nat) (typ : String) (p q : Nat) (r : List Token) (ep : Nat),
       (⟨r, ep⟩ : PState).tok ≠ "=" →
       aggAutoF (pUnion f) start typ ⟨⟨p, "ip"⟩ :: r, ep⟩ =
         aggAutoF (pUnion f) start typ ⟨⟨p, "ip"⟩ :: ⟨q, "="⟩ :: r, ep⟩) ∧
    (∀ (f start : Nat) (typ : String) (p q : Nat) (t : String) (r : List Token)
       (ep : Nat) (n : IPNet),
       ipPrefix ⟨⟨q, t⟩ :: r, ep⟩ = .ok (n, ⟨r, ep⟩) →
       t ≠ "=" →
       (⟨r, ep⟩ : PState).tok ≠ "&" →
       aggAutoF (pUnion f) start typ ⟨⟨p, "ip"⟩ :: ⟨q, t⟩ :: r, ep⟩ =
         .error (syntaxErr ⟨r, ep⟩ (expectMsg "&"))) := by
  constructor
  · intro f start typ p q r ep h
    simp only [aggAutoF, check_cons_pos, check_neg h, ite_true]
  · intro f start typ p q t r ep n h1 h2 h3
    have h2b : (⟨⟨q, t⟩ :: r, ep⟩ : PState).tok ≠ "=" := h2
    simp only [aggAutoF, check_cons_pos, check_neg h2b, h1, expect_neg h3, ite_true]

/-- Witness for C10: `any:[ip 10.0.0.0/8 ]` without the mandatory `&`. -/
theorem c10_witness :
    aggAutoF (pUnion 0) 0 "any" ⟨[⟨0, "ip"⟩, ⟨3, "10.0.0.0/8"⟩, ⟨14, "]"⟩], 15⟩ =
      .error (syntaxErr ⟨[⟨14, "]"⟩], 15⟩ (expectMsg "&")) :=
  c10_agg_auto.2 0 0 "any" 0 3 "10.0.0.0/8" [⟨14, "]"⟩] 15 ⟨v4Mapped 10 0 0 0, 8⟩
    (by rfl) (by decide) (by decide)

/-- Claim C4: any toplevel typed name that passes the token-shape check
but whose type is not `group` raises the fatal Unknown global
definition error; in particular the input `foo:x =` produces exactly
the diagnostic of the spec scenario. -/
theorem c4_unknown_global :
    (∀ (f : Nat) (fname : String) (s : PState) (typ name : String),
       typedName s = .ok (typ, name) →
       (typ = "router" && isRouterName name.data ||
        typ = "network" && isNetworkName name.data || isSimpleName name.data) = true →
       typ ≠ "group" →
       toplevel f fname s = .error (syntaxErr s "Unknown global definition")) ∧
    parseFileStr "foo:x =\n" "<file>" =
      .error "Syntax error: Unknown global definition at line 1 of <file>, near \"foo:x<--HERE--> =\"" := by
  constructor
  · intro f fname s typ name h1 h2 h3
    unfold toplevel
    simp only [h1]
    rw [if_neg (by simp [h2])]
  · rfl

/-- Witness for C4 at the typed name `bar:y`. -/
theorem c4_witness :
    toplevel 0 "f" ⟨[⟨0, "bar:y"⟩, ⟨6, "="⟩], 8⟩ =
      .error (syntaxErr ⟨[⟨0, "bar:y"⟩, ⟨6, "="⟩], 8⟩ "Unknown global definition") :=
  c4_unknown_global.1 0 "f" _ "bar" "y" (by rfl) (by rfl) (by decide)

/-- Claim C6: an intersection of exactly one element parses to that
element itself with no Intersection wrapper, and a trailing comma
immediately before the union terminator is accepted and discarded, so
the union loop returns the same element list and remaining stream as
without it. -/
theorem c6_union_shape :
    (∀ (f : Nat) (s : PState) (e : Element) (s2 : PState),
       pComplement (f + 1) s = .ok (e, s2) → s2.tok ≠ "&" →
       pIntersection (f + 1) s = .ok (e, s2)) ∧
    (∀ (f : Nat) (stop : String) (acc : List Element) (p1 p2 : Nat)
       (r : List Token) (ep : Nat), stop ≠ "," →
       pUnionTail (f + 1) stop acc ⟨⟨p1, ","⟩ :: ⟨p2, stop⟩ :: r, ep⟩ = .ok (acc, ⟨r, ep⟩) ∧
       pUnionTail (f + 1) stop acc ⟨⟨p2, stop⟩ :: r, ep⟩ = .ok (acc, ⟨r, ep⟩)) := by
  constructor
  · intro f s e s2 h1 h2
    show (packSucc (packs f)).intersection s = _
    have h1b : complementF (extendedNameF (packs f).union) s = .ok (e, s2) := h1
    simp only [packSucc, intersectionF]
    rw [h1b]
    simp only [intersectionTailStep, check_neg h2]
    simp
  · intro f stop acc p1 p2 r ep h
    have hne : (⟨⟨p1, ","⟩ :: ⟨p2, stop⟩ :: r, ep⟩ : PState).tok ≠ stop := by
      simpa [PState.tok] using Ne.symm h
    constructor
    · show unionTailStep ((packSucc (packs f)).intersection) (packs f).unionTail
        stop acc ⟨⟨p1, ","⟩ :: ⟨p2, stop⟩ :: r, ep⟩ = _
      simp [unionTailStep, check_neg hne, check_cons_pos, expect_pos]
    · show unionTailStep ((packSucc (packs f)).intersection) (packs f).unionTail
        stop acc ⟨⟨p2, stop⟩ :: r, ep⟩ = _
      simp [unionTailStep, check_cons_pos]

/-- Witness for C6: a single `host:h1` before `;`. -/
theorem c6_witness :
    pIntersection 3 ⟨[⟨0, "host:h1"⟩, ⟨8, ";"⟩], 9⟩ =
      .ok (.namedRef 0 "host" "h1" 8, ⟨[⟨8, ";"⟩], 9⟩) :=
  c6_union_shape.1 2 _ _ _ (by rfl) (by decide)

theorem check_pos {s : PState} {t : String} (h : s.tok = t) :
    check s t = (true, s.next) := by
  simp [check, h]

theorem goodList_append (a b : List Element) :
    goodList (a ++ b) = (goodList a && goodList b) := by
  induction a with
  | nil => simp [goodList]
  | cons x xs ih => simp [goodList, ih, Bool.and_assoc]

theorem hostRef_good {typ name : String} {s : PState} {e : Element} {s2 : PState}
    (h : hostRef typ name s = .ok (e, s2)) : goodB e = true := by
  unfold hostRef objectRef at h
  split at h
  · cases h
  · cases h; simp [goodB]

theorem networkRef_good {typ name : String} {s : PState} {e : Element} {s2 : PState}
    (h : networkRef typ name s = .ok (e, s2)) : goodB e = true := by
  unfold networkRef objectRef at h
  split at h
  · cases h
  · cases h; simp [goodB]

theorem simpleRef_good {typ name : String} {s : PState} {e : Element} {s2 : PState}
    (h : simpleRef typ name s = .ok (e, s2)) : goodB e = true := by
  unfold simpleRef objectRef at h
  split at h
  · cases h
  · cases h; simp [goodB]

theorem intfRef_good {typ name : String} {s : PState} {e : Element} {s2 : PState}
    (h : intfRef typ name s = .ok (e, s2)) : goodB e = true := by
  unfold intfRef at h
  cases hf : name.data.findIdx? (· = '.') with
  | none => simp only [hf] at h; cases h
  | some i =>
    simp only [hf] at h
    by_cases hb : (⟨name.data.drop (i + 1)⟩ : String) = "["
    · rw [if_pos hb] at h
      cases hs : selector s.next with
      | error => simp only [hs] at h; cases h
      | ok p =>
        obtain ⟨ext, s3⟩ := p
        simp only [hs] at h
        split at h
        next => cases h
        next => cases h; simp [goodB]
    · rw [if_neg hb] at h
      cases hf2 : (name.data.drop (i + 1)).findIdx? (· = '.') with
      | none =>
        simp only [hf2] at h
        split at h
        next => cases h
        next => cases h; simp [goodB]
      | some j =>
        simp only [hf2] at h
        split at h
        next => cases h
        next => cases h; simp [goodB]

theorem simpleAutoF_good {pu : String → PState → PRes (List Element)}
    (hu : ∀ stop s l s2, pu stop s = .ok (l, s2) → goodList l = true)
    {start : Nat} {typ : String} {s : PState} {e : Element} {s2 : PState}
    (h : simpleAutoF pu start typ s = .ok (e, s2)) : goodB e = true := by
  unfold simpleAutoF at h
  cases hq : pu "]" s with
  | error e2 => simp only [hq] at h; cases h
  | ok p =>
    obtain ⟨list, s5⟩ := p
    simp only [hq] at h
    cases h
    simp [goodB, hu _ _ _ _ hq]

theorem aggAutoF_good {pu : String → PState → PRes (List Element)}
    (hu : ∀ stop s l s2, pu stop s = .ok (l, s2) → goodList l = true)
    {start : Nat} {typ : String} {s : PState} {e : Element} {s2 : PState}
    (h : aggAutoF pu start typ s = .ok (e, s2)) : goodB e = true := by
  unfold aggAutoF at h
  by_cases h1 : s.tok = "ip"
  · simp only [check_pos h1, if_true] at h
    cases h2 : ipPrefix (check s.next "=").2 with
    | error => simp only [h2] at h; cases h
    | ok p =>
      obtain ⟨n, s3⟩ := p
      simp only [h2] at h
      cases h3 : expect s3 "&" with
      | error => simp only [h3] at h; cases h
      | ok p2 =>
        obtain ⟨_, s4⟩ := p2
        simp only [h3] at h
        cases h4 : pu "]" s4 with
        | error => simp only [h4] at h; cases h
        | ok p3 =>
          obtain ⟨list, s5⟩ := p3
          simp only [h4] at h
          cases h
          simp [goodB, hu _ _ _ _ h4]
  · simp only [check_neg h1, Bool.false_eq_true, if_false] at h
    cases h4 : pu "]" s with
    | error => simp only [h4] at h; cases h
    | ok p3 =>
      obtain ⟨list, s5⟩ := p3
      simp only [h4] at h
      cases h
      simp [goodB, hu _ _ _ _ h4]

theorem intfAutoF_good {pu : String → PState → PRes (List Element)}
    (hu : ∀ stop s l s2, pu stop s = .ok (l, s2) → goodList l = true)
    {start : Nat} {typ : String} {s : PState} {e : Element} {s2 : PState}
    (h : intfAutoF pu start typ s = .ok (e, s2)) : goodB e = true := by
  unfold intfAutoF at h
  by_cases h1 : s.tok = "managed"
  · simp only [check_pos h1, if_true] at h
    cases hx : expect s.next "&" with
    | error => simp only [hx] at h; cases h
    | ok p =>
      obtain ⟨_, s3⟩ := p
      simp only [hx] at h
      cases h4 : pu "]" s3 with
      | error => simp only [h4] at h; cases h
      | ok p3 =>
        obtain ⟨list, s5⟩ := p3
        simp only [h4] at h
        cases h5 : expect s5 ".[" with
        | error => simp only [h5] at h; cases h
        | ok p4 =>
          obtain ⟨_, s6⟩ := p4
          simp only [h5] at h
          cases h6 : selector s6 with
          | error => simp only [h6] at h; cases h
          | ok p5 =>
            obtain ⟨sel, s7⟩ := p5
            simp only [h6] at h
            cases h
            simp [goodB, hu _ _ _ _ h4]
  · simp only [check_neg h1, Bool.false_eq_true, if_false] at h
    cases h4 : pu "]" s with
    | error => simp only [h4] at h; cases h
    | ok p3 =>
      obtain ⟨list, s5⟩ := p3
      simp only [h4] at h
      cases h5 : expect s5 ".[" with
      | error => simp only [h5] at h; cases h
      | ok p4 =>
        obtain ⟨_, s6⟩ := p4
        simp only [h5] at h
        cases h6 : selector s6 with
        | error => simp only [h6] at h; cases h
        | ok p5 =>
          obtain ⟨sel, s7⟩ := p5
          simp only [h6] at h
          cases h
          simp [goodB, hu _ _ _ _ h4]

theorem userEl_good (s : PState) : goodB (userEl s).1 = true := by
  simp [userEl, goodB]

theorem extendedNameF_good {pu : String → PState → PRes (List Element)}
    (hu : ∀ stop s l s2, pu stop s = .ok (l, s2) → goodList l = true)
    {s : PState} {e : Element} {s2 : PState}
    (h : extendedNameF pu s = .ok (e, s2)) : goodB e = true := by
  unfold extendedNameF at h
  by_cases h1 : s.tok = "user"
  · simp only [check_pos h1, if_true, userEl] at h
    cases h
    simp [goodB]
  · simp only [check_neg h1, Bool.false_eq_true, if_false] at h
    cases htn : typedName s with
    | error => simp only [htn] at h; cases h
    | ok tn =>
      obtain ⟨typ, name⟩ := tn
      simp only [htn] at h
      split at h
      · split at h
        · exact simpleAutoF_good hu h
        · exact simpleAutoF_good hu h
        · exact intfAutoF_good hu h
        · exact aggAutoF_good hu h
        · cases h
      · split at h
        · exact hostRef_good h
        · exact networkRef_good h
        · exact intfRef_good h
        · exact simpleRef_good h
        · exact simpleRef_good h
        · exact simpleRef_good h
        · cases h

theorem complementF_good {pe : PState → PRes Element}
    (hpe : ∀ s e s2, pe s = .ok (e, s2) → goodB e = true)
    {s : PState} {e : Element} {s2 : PState}
    (h : complementF pe s = .ok (e, s2)) : goodB e = true := by
  unfold complementF at h
  by_cases hb : s.tok = "!"
  · simp only [check_pos hb, if_true] at h
    cases hq : pe s.next with
    | error => simp only [hq] at h; cases h
    | ok p =>
      obtain ⟨el, s3⟩ := p
      simp only [hq] at h
      cases h
      simp [goodB, hpe _ _ _ hq]
  · simp only [check_neg hb, Bool.false_eq_true, if_false] at h
    exact hpe _ _ _ h

theorem intersectionTailStep_good
    {pc : PState → PRes Element}
    {rec : List Element → PState → PRes (List Element)}
    (hpc : ∀ s e s2, pc s = .ok (e, s2) → goodB e = true)
    (hrec : ∀ acc s l s2, rec acc s = .ok (l, s2) → goodList acc = true → goodList l = true)
    {acc : List Element} {s : PState} {l : List Element} {s2 : PState}
    (h : intersectionTailStep pc rec acc s = .ok (l, s2))
    (hacc : goodList acc = true) : goodList l = true := by
  unfold intersectionTailStep at h
  by_cases hb : s.tok = "&"
  · simp only [check_pos hb, if_true] at h
    cases hq : pc s.next with
    | error => simp only [hq] at h; cases h
    | ok p =>
      obtain ⟨el, s3⟩ := p
      simp only [hq] at h
      refine hrec _ _ _ _ h ?_
      simp [goodList_append, hacc, goodList, hpc _ _ _ hq]
  · simp only [check_neg hb, Bool.false_eq_true, if_false] at h
    cases h
    exact hacc

theorem intersectionF_good
    {pc : PState → PRes Element}
    {itail : List Element → PState → PRes (List Element)}
    (hpc : ∀ s e s2, pc s = .ok (e, s2) → goodB e = true)
    (hitail : ∀ acc s l s2, itail acc s = .ok (l, s2) → goodList acc = true → goodList l = true)
    {s : PState} {e : Element} {s2 : PState}
    (h : intersectionF pc itail s = .ok (e, s2)) : goodB e = true := by
  unfold intersectionF at h
  cases hq : pc s with
  | error => simp only [hq] at h; cases h
  | ok p =>
    obtain ⟨e0, s1⟩ := p
    simp only [hq] at h
    cases hq2 : itail [e0] s1 with
    | error => simp only [hq2] at h; cases h
    | ok p2 =>
      obtain ⟨l, s3⟩ := p2
      simp only [hq2] at h
      have hl : goodList l = true :=
        hitail _ _ _ _ hq2 (by simp [goodList, hpc _ _ _ hq])
      split at h
      next hlen =>
        cases h
        simp [goodB, hl]
        omega
      next hlen =>
        split at h
        next x =>
          cases h
          simp [goodList] at hl
          exact hl
        next => cases h

theorem unionTailStep_good
    {pi : PState → PRes Element}
    {rec : String → List Element → PState → PRes (List Element)}
    (hpi : ∀ s e s2, pi s = .ok (e, s2) → goodB e = true)
    (hrec : ∀ stop acc s l s2, rec stop acc s = .ok (l, s2) → goodList acc = true → goodList l = true)
    {stop : String} {acc : List Element} {s : PState} {l : List Element} {s2 : PState}
    (h : unionTailStep pi rec stop acc s = .ok (l, s2))
    (hacc : goodList acc = true) : goodList l = true := by
  unfold unionTailStep at h
  by_cases hb : s.tok = stop
  · simp only [check_pos hb, if_true] at h
    cases h
    exact hacc
  · simp only [check_neg hb, Bool.false_eq_true, if_false] at h
    cases he : expect s "," with
    | error => simp only [he] at h; cases h
    | ok p =>
      obtain ⟨_, s3⟩ := p
      simp only [he] at h
      by_cases hb2 : s3.tok = stop
      · simp only [check_pos hb2, if_true] at h
        cases h
        exact hacc
      · simp only [check_neg hb2, Bool.false_eq_true, if_false] at h
        cases hq : pi s3 with
        | error => simp only [hq] at h; cases h
        | ok p2 =>
          obtain ⟨el, s4⟩ := p2
          simp only [hq] at h
          refine hrec _ _ _ _ _ h ?_
          simp [goodList_append, hacc, goodList, hpi _ _ _ hq]

theorem unionF_good
    {pi : PState → PRes Element}
    {utail : String → List Element → PState → PRes (List Element)}
    (hpi : ∀ s e s2, pi s = .ok (e, s2) → goodB e = true)
    (hutail : ∀ stop acc s l s2, utail stop acc s = .ok (l, s2) → goodList acc = true → goodList l = true)
    {stop : String} {s : PState} {l : List Element} {s2 : PState}
    (h : unionF pi utail stop s = .ok (l, s2)) : goodList l = true := by
  unfold unionF at h
  cases hq : pi s with
  | error => simp only [hq] at h; cases h
  | ok p =>
    obtain ⟨e0, s1⟩ := p
    simp only [hq] at h
    exact hutail _ _ _ _ _ h (by simp [goodList, hpi _ _ _ hq])

theorem parserGood (f : Nat) :
    (∀ s e s2, pExtendedName f s = .ok (e, s2) → goodB e = true) ∧
    (∀ s e s2, pComplement f s = .ok (e, s2) → goodB e = true) ∧
    (∀ acc s l s2, pIntersectionTail f acc s = .ok (l, s2) → goodList acc = true →
       goodList l = true) ∧
    (∀ s e s2, pIntersection f s = .ok (e, s2) → goodB e = true) ∧
    (∀ stop acc s l s2, pUnionTail f stop acc s = .ok (l, s2) → goodList acc = true →
       goodList l = true) ∧
    (∀ stop s l s2, pUnion f stop s = .ok (l, s2) → goodList l = true) := by
  induction f with
  | zero =>
    refine ⟨?_, ?_, ?_, ?_, ?_, ?_⟩
    · intro s e s2 h; simp [pExtendedName, packs, packZero] at h
    · intro s e s2 h; simp [pComplement, packs, packZero] at h
    · intro acc s l s2 h; simp [pIntersectionTail, packs, packZero] at h
    · intro s e s2 h; simp [pIntersection, packs, packZero] at h
    · intro stop acc s l s2 h; simp [pUnionTail, packs, packZero] at h
    · intro stop s l s2 h; simp [pUnion, packs, packZero] at h
  | succ f ih =>
    obtain ⟨ihEn, ihCo, ihIT, ihIn, ihUT, ihUn⟩ := ih
    have hEn : ∀ s e s2, pExtendedName (f + 1) s = .ok (e, s2) → goodB e = true :=
      fun s e s2 h => extendedNameF_good ihUn h
    have hCo : ∀ s e s2, pComplement (f + 1) s = .ok (e, s2) → goodB e = true :=
      fun s e s2 h => complementF_good hEn h
    have hIT : ∀ acc s l s2, pIntersectionTail (f + 1) acc s = .ok (l, s2) →
        goodList acc = true → goodList l = true :=
      fun acc s l s2 h hacc => intersectionTailStep_good hCo ihIT h hacc
    have hIn : ∀ s e s2, pIntersection (f + 1) s = .ok (e, s2) → goodB e = true :=
      fun s e s2 h => intersectionF_good hCo hIT h
    have hUT : ∀ stop acc s l s2, pUnionTail (f + 1) stop acc s = .ok (l, s2) →
        goodList acc = true → goodList l = true :=
      fun stop acc s l s2 h hacc => unionTailStep_good hIn ihUT h hacc
    have hUn : ∀ stop s l s2, pUnion (f + 1) stop s = .ok (l, s2) → goodList l = true :=
      fun stop s l s2 h => unionF_good hIn hUT h
    exact ⟨hEn, hCo, hIT, hIn, hUT, hUn⟩

theorem group_good {f : Nat} {s : PState} {g : Group} {s2 : PState}
    (h : group f s = .ok (g, s2)) : goodList g.elements = true := by
  unfold group at h
  cases h1 : expect s.next "=" with
  | error => simp only [h1] at h; cases h
  | ok p =>
    obtain ⟨_, s3⟩ := p
    simp only [h1] at h
    cases h2 : description s3 with
    | error => simp only [h2] at h; cases h
    | ok p2 =>
      obtain ⟨d, s4⟩ := p2
      simp only [h2] at h
      by_cases h3 : s4.tok = ";"
      · simp only [check_pos h3, if_true] at h
        cases h
        simp [goodList]
      · simp only [check_neg h3, Bool.false_eq_true, if_false] at h
        cases h4 : pUnion f ";" s4 with
        | error => simp only [h4] at h; cases h
        | ok p3 =>
          obtain ⟨list, s5⟩ := p3
          simp only [h4] at h
          cases h
          exact (parserGood f).2.2.2.2.2 _ _ _ _ h4

theorem toplevel_good {f : Nat} {fname : String} {s : PState} {t : Toplevel} {s2 : PState}
    (h : toplevel f fname s = .ok (t, s2)) : goodTop t = true := by
  unfold toplevel at h
  cases h1 : typedName s with
  | error => simp only [h1] at h; cases h
  | ok tn =>
    obtain ⟨typ, name⟩ := tn
    simp only [h1] at h
    split at h
    next => cases h
    next =>
      split at h
      next =>
        cases h2 : group f s with
        | error => simp only [h2] at h; cases h
        | ok p =>
          obtain ⟨g, s3⟩ := p
          simp only [h2] at h
          cases h
          simpa [goodTop] using group_good h2
      next => cases h

theorem fileLoop_good : ∀ (n f : Nat) (fname : String) (s : PState) (l : List Toplevel),
    fileLoop n f fname s = .ok l → goodTops l = true := by
  intro n
  induction n with
  | zero => intro f fname s l h; simp [fileLoop] at h
  | succ n ih =>
    intro f fname s l h
    unfold fileLoop at h
    by_cases h1 : s.tok = ""
    · rw [if_pos h1] at h
      cases h
      simp [goodTops]
    · rw [if_neg h1] at h
      cases h2 : toplevel f fname s with
      | error => simp only [h2] at h; cases h
      | ok p =>
        obtain ⟨t, s3⟩ := p
        simp only [h2] at h
        cases h3 : fileLoop n f fname s3 with
        | error => simp only [h3] at h; cases h
        | ok l2 =>
          simp only [h3] at h
          cases h
          simp [goodTops, toplevel_good h2, ih _ _ _ _ h3]

/-- Claim C5, amended: every Intersection node in any parse result has
at least two members (recursively, throughout every group); and the
grammar does accept a `!`-negated first element of an intersection,
building an Intersection whose first member carries Complement. -/
theorem c5_intersection_invariant :
    (∀ (src : List Char) (fname : String), goodParse (parseFile src fname) = true) ∧
    (match pIntersection 4 ⟨[⟨0, "!"⟩, ⟨2, "group:g1"⟩, ⟨11, "&"⟩, ⟨13, "host:h2"⟩], 20⟩ with
     | .ok (e, _) => goodB e && firstIsComplement e
     | .error _ => false) = true := by
  constructor
  · intro src fname
    cases h : parseFile src fname with
    | error e => simp [goodParse]
    | ok l =>
      have h2 : fileLoop ((tokenize src).length + 1) ((tokenize src).length * 2 + 8)
          fname ⟨tokenize src, src.length⟩ = .ok l := h
      simp only [goodParse]
      exact fileLoop_good _ _ _ _ _ h2
  · rfl

/-- Claim C5 as stated is false: on the concrete element text
`! group:g1 & host:h2` the parser builds an Intersection whose first
member carries a Complement wrapper; negation of the first element of
an intersection is accepted by the grammar. -/
theorem c5_counterexample :
    (match pIntersection 4 ⟨[⟨0, "!"⟩, ⟨2, "group:g1"⟩, ⟨11, "&"⟩, ⟨13, "host:h2"⟩], 20⟩ with
     | .ok (e, _) => firstIsComplement e
     | .error _ => false) = true := by
  rfl

theorem lexLE_total (a b : List Char) : lexLE a b = true ∨ lexLE b a = true := by
  induction a generalizing b with
  | nil => left; rfl
  | cons x xs ih =>
    cases b with
    | nil => right; rfl
    | cons y ys =>
      rcases Nat.lt_trichotomy x.toNat y.toNat with h | h | h
      · left; simp [lexLE, h]
      · have h1 : ¬ x.toNat < y.toNat := by omega
        have h2 : ¬ y.toNat < x.toNat := by omega
        rcases ih ys with hc | hc
        · left; simp [lexLE, h1, h2, hc]
        · right; simp [lexLE, h1, h2, hc]
      · have h1 : ¬ x.toNat < y.toNat := by omega
        right; simp [lexLE, h, h1]

theorem natStep_total {x y : Nat} {r1 r2 : Bool}
    (hrest : x = y → (r1 = true ∨ r2 = true)) :
    (if x ≠ y then decide (x < y) else r1) = true ∨
    (if y ≠ x then decide (y < x) else r2) = true := by
  by_cases h : x = y
  · subst h
    simpa using hrest rfl
  · rcases Nat.lt_or_gt_of_ne h with hlt | hgt
    · left; simp [h, hlt]
    · right; simp [Ne.symm h, hgt]

theorem sortKeyLE_total (a b : SortKey) : sortKeyLE a b = true ∨ sortKeyLE b a = true := by
  unfold sortKeyLE
  refine natStep_total fun h1 => ?_
  refine natStep_total fun h2 => ?_
  refine natStep_total fun h3 => ?_
  refine natStep_total fun h4 => ?_
  exact lexLE_total a.name b.name

theorem elLE_total (a b : Element) : elLE a b = true ∨ elLE b a = true :=
  sortKeyLE_total (sortKey a) (sortKey b)

theorem insertEl_perm (x : Element) (l : List Element) :
    (insertEl x l).Perm (x :: l) := by
  induction l with
  | nil => exact List.Perm.refl _
  | cons y ys ih =>
    unfold insertEl
    by_cases h : elLE x y
    · simp [h]
    · simp only [h, Bool.false_eq_true, if_false]
      exact (List.Perm.cons y ih).trans (List.Perm.swap x y ys)

theorem sortElements_perm (l : List Element) : (sortElements l).Perm l := by
  induction l with
  | nil => exact List.Perm.refl _
  | cons x xs ih =>
    exact (insertEl_perm x (sortElements xs)).trans (List.Perm.cons x ih)

theorem insertEl_head (x : Element) (l : List Element) :
    (insertEl x l).head? = some x ∨ (insertEl x l).head? = l.head? := by
  cases l with
  | nil => left; rfl
  | cons y ys =>
    unfold insertEl
    by_cases h : elLE x y <;> simp [h]

theorem insertEl_chain (x : Element) (l : List Element)
    (h : List.Chain' (fun a b => elLE a b = true) l) :
    List.Chain' (fun a b => elLE a b = true) (insertEl x l) := by
  induction l with
  | nil => simp [insertEl]
  | cons y ys ih =>
    unfold insertEl
    by_cases hxy : elLE x y
    · simp only [hxy, if_true]
      exact List.chain'_cons.mpr ⟨hxy, h⟩
    · simp only [hxy, Bool.false_eq_true, if_false]
      rw [List.chain'_cons']
      constructor
      · intro z hz
        rcases insertEl_head x ys with hh | hh
        · rw [hh] at hz
          cases hz
          rcases elLE_total x y with hc | hc
          · exact absurd hc hxy
          · exact hc
        · rw [hh] at hz
          exact (List.chain'_cons'.mp h).1 z hz
      · exact ih (List.chain'_cons'.mp h).2

theorem sortElements_chain (l : List Element) :
    List.Chain' (fun a b => elLE a b = true) (sortElements l) := by
  induction l with
  | nil => simp [sortElements]
  | cons x xs ih => exact insertEl_chain x (sortElements xs) ih

theorem sortKey_cat (e : Element) : (sortKey e).cat = typePriority (elTyp e) := by
  unfold sortKey
  cases h : extractAddr (nameText e) with
  | none => simp [h]
  | some p => obtain ⟨_, _⟩ := p; simp [h]

theorem elLE_priority {a b : Element} (h : elLE a b = true) :
    typePriority (elTyp a) ≤ typePriority (elTyp b) := by
  unfold elLE sortKeyLE at h
  rw [← sortKey_cat a, ← sortKey_cat b]
  by_cases h1 : (sortKey a).cat = (sortKey b).cat
  · exact Nat.le_of_eq h1
  · rw [if_pos h1] at h
    exact Nat.le_of_lt (of_decide_eq_true h)

/-- Claim C2: the canonical ordering applied by the renderer to every
union list is a permutation of the list, every adjacent pair of the
result is ordered by the sort key (category priority, then members
without an extracted address lexically by name, then members with one
ascending by address with the secondary value and name as tie-breaks),
and in particular the category priority order
group < any < network < interface < host holds across every adjacent
pair. -/
theorem c2_canonical_order (l : List Element) :
    (sortElements l).Perm l ∧
    List.Chain' (fun a b => elLE a b = true) (sortElements l) ∧
    List.Chain' (fun a b => typePriority (elTyp a) ≤ typePriority (elTyp b))
      (sortElements l) :=
  ⟨sortElements_perm l, sortElements_chain l,
   (sortElements_chain l).imp fun _ _ h => elLE_priority h⟩

/-- Claim C3, amended: comments are not conserved. The printed output
of an empty parse result is empty whatever the source was, so every
comment of an accepted input whose parse yields no toplevel definition
is dropped (and the rendered output then contains no comment lines at
all). -/
theorem c3_comments_amended (src : List Char) (fname : String)
    (_h : parseFile src fname = .ok []) :
    printFile [] src = [] ∧ commentLines (printFile [] src) = [] := by
  exact ⟨rfl, rfl⟩

/-- Witness for C3 at the comment-only source. -/
theorem c3_witness :
    printFile [] "# c1\n".data = [] ∧
    commentLines (printFile [] "# c1\n".data) = [] :=
  c3_comments_amended "# c1\n".data "f" (by rfl)

/-- Claim C3 as stated is false at the concrete accepted input
`# c1\n`: the input contains one comment text, the pipeline renders it
to empty output, and the comment multiset of the output differs from
that of the input. -/
theorem c3_counterexample :
    renderOfParse "# c1\n".data "f" = some [] ∧
    commentLines "# c1\n".data ≠ commentLines [] := by
  constructor
  · rfl
  · decide

end Spoc
